import Mathlib

set_option maxRecDepth 4000

/-!
# Verification of the dria-oracle-node task-processing engine

A shallow embedding of the node's task-processing code, translated from the
Rust sources, together with theorems settling the specification claims.

Modelling conventions used throughout:

* Rust byte strings (`Bytes`, `Vec<u8>`, and `String` viewed through its
  UTF-8 representation) are modelled as `List Nat`, one entry per byte.
* Ethereum addresses in the handler sections are abstract identifiers
  (`Nat`); in the Swan post-processor they are the parsed 20-byte lists.
* External effects (RPC calls, HTTP uploads and downloads, LLM execution)
  are supplied as explicit functions inside an environment structure, and
  fallible Rust calls (`?` on `Result`) become `Except String` values.
* Machine integers are modelled as `Nat`; no arithmetic in the verified
  paths depends on wrap-around behaviour.
-/

/-- Byte strings: Rust `Bytes` / `Vec<u8>` / UTF-8 contents of `String`. -/
abbrev ByteStr := List Nat

/-- `haystack.startsWith pat` at byte level: does `pat` occur at position 0? -/
def bytesStartWith : ByteStr → ByteStr → Bool
  | _, [] => true
  | [], _ :: _ => false
  | a :: as_, b :: bs => a == b && bytesStartWith as_ bs

/-- Rust `str::find(pat)`: byte index of the first occurrence of `pat`, if any. -/
def findSub (hay pat : ByteStr) : Option Nat :=
  if bytesStartWith hay pat then some 0
  else
    match hay with
    | [] => none
    | _ :: t => (findSub t pat).map (· + 1)

/-- Rust `str::contains(pat)` at byte level. -/
def containsSub (hay pat : ByteStr) : Bool :=
  (findSub hay pat).isSome

/-- Lowercase hexadecimal digit, as in serde_json's escape tables. -/
def hexDigitByte (d : Nat) : Nat :=
  if d < 10 then 48 + d else 87 + d

/-- Inverse of a hexadecimal digit byte (accepts `0-9`, `a-f`, `A-F`),
as in the hex decoders used by serde_json and const-hex. -/
def hexValOfByte (b : Nat) : Option Nat :=
  if 48 ≤ b ∧ b ≤ 57 then some (b - 48)
  else if 97 ≤ b ∧ b ≤ 102 then some (b - 87)
  else if 65 ≤ b ∧ b ≤ 70 then some (b - 55)
  else none

/-- serde_json's escaping of one byte of a string being serialized:
`"` and `\` get a backslash escape, control bytes below `0x20` get their
short escape when one exists and a `\u00xx` escape otherwise, and every
other byte is emitted unchanged. -/
def jsonEscapeByte (b : Nat) : ByteStr :=
  if b = 0x22 then [0x5C, 0x22]
  else if b = 0x5C then [0x5C, 0x5C]
  else if b < 0x20 then
    if b = 0x08 then [0x5C, 0x62]
    else if b = 0x0C then [0x5C, 0x66]
    else if b = 0x0A then [0x5C, 0x6E]
    else if b = 0x0D then [0x5C, 0x72]
    else if b = 0x09 then [0x5C, 0x74]
    else [0x5C, 0x75, 0x30, 0x30, hexDigitByte (b / 16), hexDigitByte (b % 16)]
  else [b]

/-- serde_json's escaping of a whole string (byte by byte; multi-byte UTF-8
sequences consist of bytes `≥ 0x80` and pass through unchanged). -/
def jsonEscape (s : ByteStr) : ByteStr :=
  (s.map jsonEscapeByte).flatten

/-- `ArweaveKey` from `storage/src/arweave.rs`: the transaction id string
(as UTF-8 bytes) under the single serde field `arweave`. -/
structure ArweaveKey where
  arweave : ByteStr
deriving DecidableEq, Repr

/-- The UTF-8 bytes of the literal `"arweave"` including both quotes. -/
def arweaveFieldLit : ByteStr :=
  [0x22, 0x61, 0x72, 0x77, 0x65, 0x61, 0x76, 0x65, 0x22]

/-- `serde_json::to_string(&key)` for an `ArweaveKey`: the canonical object
`{"arweave":"<escaped id>"}` (serde_json emits no whitespace). -/
def serializeArweaveKey (k : ArweaveKey) : ByteStr :=
  0x7B :: arweaveFieldLit ++ [0x3A, 0x22] ++ jsonEscape k.arweave ++ [0x22, 0x7D]

/-- JSON insignificant whitespace: space, tab, line feed, carriage return. -/
def isJsonWs (b : Nat) : Bool :=
  b == 0x20 || b == 0x09 || b == 0x0A || b == 0x0D

/-- Skip insignificant whitespace, as serde_json's parser does between tokens. -/
def skipJsonWs : ByteStr → ByteStr
  | [] => []
  | b :: rest => if isJsonWs b then skipJsonWs rest else b :: rest

/-- Decode the four hex digits of a `\uXXXX` escape, returning the code
point and the remaining input. -/
def parseHex4 : ByteStr → Option (Nat × ByteStr)
  | h1 :: h2 :: h3 :: h4 :: rest =>
    match hexValOfByte h1, hexValOfByte h2, hexValOfByte h3, hexValOfByte h4 with
    | some d1, some d2, some d3, some d4 => some (d1 * 4096 + d2 * 256 + d3 * 16 + d4, rest)
    | _, _, _, _ => none
  | _ => none

/-- A successful `\uXXXX` decode consumes exactly four bytes. -/
theorem parseHex4_length {s : ByteStr} {vr : Nat × ByteStr}
    (h : parseHex4 s = some vr) : vr.2.length + 4 = s.length := by
  obtain ⟨v, r⟩ := vr
  match s with
  | [] => simp [parseHex4] at h
  | [_] => simp [parseHex4] at h
  | [_, _] => simp [parseHex4] at h
  | [_, _, _] => simp [parseHex4] at h
  | h1 :: h2 :: h3 :: h4 :: rest =>
    simp only [parseHex4] at h
    rcases e1 : hexValOfByte h1 with _ | d1 <;> rw [e1] at h <;>
      rcases e2 : hexValOfByte h2 with _ | d2 <;> rw [e2] at h <;>
        rcases e3 : hexValOfByte h3 with _ | d3 <;> rw [e3] at h <;>
          rcases e4 : hexValOfByte h4 with _ | d4 <;> rw [e4] at h <;>
            simp at h
    obtain ⟨-, h⟩ := h
    simp [← h]

/-- Parse the body of a JSON string literal (the opening quote already
consumed): unescape up to the closing quote and return the contents along
with the rest of the input. `\u` escapes are resolved for code points below
`0x80` (one byte of UTF-8), which covers every escape serde_json emits for
them. -/
def parseJsonStringBody : ByteStr → Option (ByteStr × ByteStr)
  | [] => none
  | b :: rest =>
    if b = 0x22 then some ([], rest)
    else if b = 0x5C then
      match rest with
      | [] => none
      | e :: rest2 =>
        if e = 0x22 then (parseJsonStringBody rest2).map (fun p => (0x22 :: p.1, p.2))
        else if e = 0x5C then (parseJsonStringBody rest2).map (fun p => (0x5C :: p.1, p.2))
        else if e = 0x2F then (parseJsonStringBody rest2).map (fun p => (0x2F :: p.1, p.2))
        else if e = 0x62 then (parseJsonStringBody rest2).map (fun p => (0x08 :: p.1, p.2))
        else if e = 0x66 then (parseJsonStringBody rest2).map (fun p => (0x0C :: p.1, p.2))
        else if e = 0x6E then (parseJsonStringBody rest2).map (fun p => (0x0A :: p.1, p.2))
        else if e = 0x72 then (parseJsonStringBody rest2).map (fun p => (0x0D :: p.1, p.2))
        else if e = 0x74 then (parseJsonStringBody rest2).map (fun p => (0x09 :: p.1, p.2))
        else if e = 0x75 then
          match hp : parseHex4 rest2 with
          | some vr =>
            if vr.1 < 0x80 then
              (parseJsonStringBody vr.2).map (fun p => (vr.1 :: p.1, p.2))
            else none
          | none => none
        else none
    else (parseJsonStringBody rest).map (fun p => (b :: p.1, p.2))
termination_by s => s.length
decreasing_by
  all_goals simp only [List.length_cons]
  all_goals try omega
  all_goals rename parseHex4 _ = _ => hp2
  all_goals have h3 := parseHex4_length hp2
  all_goals omega

/-- Consume one expected byte. -/
def expectByte (b : Nat) : ByteStr → Option ByteStr
  | [] => none
  | x :: rest => if x = b then some rest else none

/-- Consume an expected literal byte sequence. -/
def expectBytes : ByteStr → ByteStr → Option ByteStr
  | [], s => some s
  | b :: pat, s => (expectByte b s).bind (expectBytes pat)

/-- `ArweaveStorage::is_key` (`storage/src/arweave.rs`):
`serde_json::from_str::<ArweaveKey>(key).ok()`. Modelled as a parser of the
JSON grammar restricted to the `ArweaveKey` shape — an object with the single
field `"arweave"` holding a string — with insignificant whitespace allowed
between tokens and nothing but whitespace after the closing brace, which is
serde_json's acceptance behaviour on that shape. -/
def isKey (s : ByteStr) : Option ArweaveKey :=
  (expectByte 0x7B (skipJsonWs s)).bind fun s =>
    (expectBytes arweaveFieldLit (skipJsonWs s)).bind fun s =>
      (expectByte 0x3A (skipJsonWs s)).bind fun s =>
        (expectByte 0x22 (skipJsonWs s)).bind fun s =>
          (parseJsonStringBody s).bind fun p =>
            (expectByte 0x7D (skipJsonWs p.2)).bind fun s =>
              if skipJsonWs s = [] then some ⟨p.1⟩ else none

/-- Environment for `ArweaveStorage`: the configured byte limit and the
effect of `put` (the Irys upload), abstracted as the key the network returns
for a given value. -/
structure ArweaveEnv where
  byteLimit : Nat
  upload : ByteStr → ArweaveKey

/-- `ArweaveStorage::put_if_large` (`storage/src/arweave.rs` lines 118-134):
if `value.len() > byte_limit`, upload and return the JSON serialization of
the returned key as bytes; otherwise return the value unchanged. -/
def putIfLarge (env : ArweaveEnv) (value : ByteStr) : ByteStr :=
  if env.byteLimit < value.length then
    serializeArweaveKey (env.upload value)
  else
    value

/-- `parse_downloadable` (`core/src/compute/utils.rs`): interpret the bytes
as a string; if `is_key` recognizes it as a storage key, download and return
that data, otherwise return the inline string. `bytes_to_string` is the
identity on our byte-level strings (UTF-8 validation of library `String`s is
not re-modelled); `download` abstracts the Arweave HTTP `get`. -/
def parseDownloadable (download : ArweaveKey → Except String ByteStr)
    (inputBytes : ByteStr) : Except String ByteStr :=
  match isKey inputBytes with
  | some key => download key
  | none => .ok inputBytes

/-- Round-trip of a single escaped byte through the string-body parser. -/
theorem hexValOfByte_hexDigitByte (d : Nat) (hd : d < 16) :
    hexValOfByte (hexDigitByte d) = some d := by
  unfold hexDigitByte hexValOfByte
  by_cases h : d < 10
  · rw [if_pos h, if_pos (by omega)]
    congr 1
    omega
  · rw [if_neg h, if_neg (by omega), if_pos (by omega)]
    congr 1
    omega

theorem parseJsonStringBody_escapeByte (b : Nat) (tail : ByteStr) :
    parseJsonStringBody (jsonEscapeByte b ++ tail) =
      (parseJsonStringBody tail).map (fun p => (b :: p.1, p.2)) := by
  by_cases h22 : b = 0x22
  · subst h22; rw [show jsonEscapeByte 0x22 ++ tail = 92 :: 34 :: tail from rfl,
      parseJsonStringBody]; norm_num
  · by_cases h5c : b = 0x5C
    · subst h5c; rw [show jsonEscapeByte 0x5C ++ tail = 92 :: 92 :: tail from rfl,
        parseJsonStringBody]; norm_num
    · by_cases hctl : b < 0x20
      · by_cases h08 : b = 0x08
        · subst h08; rw [show jsonEscapeByte 0x08 ++ tail = 92 :: 98 :: tail from rfl,
            parseJsonStringBody]; norm_num
        · by_cases h0c : b = 0x0C
          · subst h0c; rw [show jsonEscapeByte 0x0C ++ tail = 92 :: 102 :: tail from rfl,
              parseJsonStringBody]; norm_num
          · by_cases h0a : b = 0x0A
            · subst h0a; rw [show jsonEscapeByte 0x0A ++ tail = 92 :: 110 :: tail from rfl,
                parseJsonStringBody]; norm_num
            · by_cases h0d : b = 0x0D
              · subst h0d; rw [show jsonEscapeByte 0x0D ++ tail = 92 :: 114 :: tail from rfl,
                  parseJsonStringBody]; norm_num
              · by_cases h09 : b = 0x09
                · subst h09; rw [show jsonEscapeByte 0x09 ++ tail = 92 :: 116 :: tail from rfl,
                    parseJsonStringBody]; norm_num
                · have hdiv : hexValOfByte (hexDigitByte (b / 16)) = some (b / 16) :=
                    hexValOfByte_hexDigitByte _ (by omega)
                  have hmod : hexValOfByte (hexDigitByte (b % 16)) = some (b % 16) :=
                    hexValOfByte_hexDigitByte _ (by omega)
                  have hesc : jsonEscapeByte b =
                      [0x5C, 0x75, 0x30, 0x30, hexDigitByte (b / 16), hexDigitByte (b % 16)] := by
                    simp [jsonEscapeByte, h22, h5c, hctl, h08, h0c, h0a, h0d, h09]
                  have hph : parseHex4
                      (48 :: 48 :: hexDigitByte (b / 16) :: hexDigitByte (b % 16) :: tail)
                      = some (b, tail) := by
                    simp only [parseHex4, hdiv, hmod,
                      show hexValOfByte 48 = some 0 from rfl]
                    have hb : 0 * 4096 + 0 * 256 + b / 16 * 16 + b % 16 = b := by omega
                    rw [hb]
                  rw [hesc]
                  simp only [List.cons_append, List.nil_append, parseJsonStringBody]
                  norm_num
                  split
                  · rename_i vr hvr
                    rw [hph] at hvr
                    cases hvr
                    simp [show b < 128 by omega]
                  · rename_i hvr
                    rw [hph] at hvr
                    cases hvr
      · have hesc : jsonEscapeByte b = [b] := by
          simp [jsonEscapeByte, h22, h5c, hctl]
        rw [hesc]
        show parseJsonStringBody (b :: tail) = _
        rw [parseJsonStringBody.eq_def]
        dsimp only
        rw [if_neg h22, if_neg h5c]

/-- Round-trip of serde_json string escaping through the string-body parser. -/
theorem parseJsonStringBody_escape (a rest : ByteStr) :
    parseJsonStringBody (jsonEscape a ++ 0x22 :: rest) = some (a, rest) := by
  induction a with
  | nil =>
      show parseJsonStringBody (jsonEscape [] ++ 0x22 :: rest) = _
      rw [show jsonEscape [] ++ 0x22 :: rest = 34 :: rest by simp [jsonEscape]]
      rw [parseJsonStringBody.eq_def]
      dsimp only
      norm_num
  | cons b a' ih =>
      have h : jsonEscape (b :: a') = jsonEscapeByte b ++ jsonEscape a' := by
        simp [jsonEscape]
      rw [h, List.append_assoc, parseJsonStringBody_escapeByte, ih]
      rfl

/-- Consuming a literal byte sequence from itself succeeds. -/
theorem expectBytes_self (pat s : ByteStr) : expectBytes pat (pat ++ s) = some s := by
  induction pat with
  | nil => rfl
  | cons b pat ih => simp [expectBytes, expectByte, ih]

/-- serde_json's serialization of an `ArweaveKey` parses back to the same key. -/
theorem isKey_serializeArweaveKey (k : ArweaveKey) :
    isKey (serializeArweaveKey k) = some k := by
  obtain ⟨a⟩ := k
  simp only [serializeArweaveKey, arweaveFieldLit, List.cons_append, List.nil_append,
    List.append_assoc]
  simp [isKey, skipJsonWs, isJsonWs, expectByte, expectBytes, parseJsonStringBody_escape]

/-- **C7.** `put_if_large` returns any value whose length is at most the byte
limit unchanged (length exactly equal to the limit included), and for any
strictly larger value returns the bytes of the JSON serialization of the key
produced by uploading it. -/
theorem putIfLarge_threshold (env : ArweaveEnv) (v : ByteStr) :
    (v.length ≤ env.byteLimit → putIfLarge env v = v)
    ∧ (env.byteLimit < v.length →
        putIfLarge env v = serializeArweaveKey (env.upload v)) := by
  constructor
  · intro h
    rw [putIfLarge, if_neg (by omega)]
  · intro h
    rw [putIfLarge, if_pos h]

theorem putIfLarge_threshold_witness :
    (([1, 2] : ByteStr).length ≤ 2 ∧ putIfLarge ⟨2, fun _ => ⟨[98]⟩⟩ [1, 2] = [1, 2])
    ∧ ((2 : Nat) < ([1, 2, 3] : ByteStr).length
        ∧ putIfLarge ⟨2, fun _ => ⟨[98]⟩⟩ [1, 2, 3] = serializeArweaveKey ⟨[98]⟩) :=
  ⟨⟨by decide, (putIfLarge_threshold ⟨2, fun _ => ⟨[98]⟩⟩ [1, 2]).1 (by decide)⟩,
   ⟨by decide, (putIfLarge_threshold ⟨2, fun _ => ⟨[98]⟩⟩ [1, 2, 3]).2 (by decide)⟩⟩

/-- **C10.** Key recognition round-trips with key serialization: `is_key` on
the JSON serialization of any `ArweaveKey` returns it; hence the bytes
returned by the upload branch of `put_if_large` are recognized as a storage
key, and `parse_downloadable` dereferences them instead of returning them as
inline text. -/
theorem isKey_round_trip (k : ArweaveKey) (env : ArweaveEnv) (v : ByteStr)
    (download : ArweaveKey → Except String ByteStr)
    (hlarge : env.byteLimit < v.length) :
    isKey (serializeArweaveKey k) = some k
    ∧ isKey (putIfLarge env v) = some (env.upload v)
    ∧ parseDownloadable download (putIfLarge env v) = download (env.upload v) := by
  have hp : putIfLarge env v = serializeArweaveKey (env.upload v) := by
    rw [putIfLarge, if_pos hlarge]
  refine ⟨isKey_serializeArweaveKey k, ?_, ?_⟩
  · rw [hp, isKey_serializeArweaveKey]
  · rw [parseDownloadable, hp, isKey_serializeArweaveKey]

theorem isKey_round_trip_witness :
    (2 : Nat) < ([1, 2, 3] : ByteStr).length
    ∧ (isKey (serializeArweaveKey ⟨[97]⟩) = some ⟨[97]⟩
        ∧ isKey (putIfLarge ⟨2, fun _ => ⟨[98]⟩⟩ [1, 2, 3]) = some ⟨[98]⟩
        ∧ parseDownloadable (fun _ => .ok [5]) (putIfLarge ⟨2, fun _ => ⟨[98]⟩⟩ [1, 2, 3])
            = (fun _ => (.ok [5] : Except String ByteStr)) (⟨[98]⟩ : ArweaveKey)) :=
  ⟨by decide, isKey_round_trip ⟨[97]⟩ ⟨2, fun _ => ⟨[98]⟩⟩ [1, 2, 3] (fun _ => .ok [5]) (by decide)⟩

/-- `ValidationResult` (`src/compute/workflows/validation/execute.rs`):
per-generation scores (each a `u8`, modelled as `Nat`) and a rationale. -/
structure ValidationResult where
  helpfulness : Nat
  instruction_following : Nat
  final_score : Nat
  truthfulness : Nat
  rationale : ByteStr
deriving DecidableEq, Repr

/-- `ValidationResult::final_score_as_solidity_type`: clamp `final_score` to
`[1, 5]`, then scale through the fixed table (the `_` arm is the Rust
`unreachable!`, which the clamp makes dead). -/
def ValidationResult.final_score_as_solidity_type (r : ValidationResult) : Nat :=
  match min (max r.final_score 1) 5 with
  | 1 => 1
  | 2 => 64
  | 3 => 85
  | 4 => 127
  | 5 => 255
  | _ => 0

/-- **C9.** The final-score projection first clamps to `1..=5` and then maps
through the table `1→1, 2→64, 3→85, 4→127, 5→255`; on `{1..5}` it is
strictly monotonic: `score(a) ≤ score(b)` iff `a ≤ b`. -/
theorem final_score_projection_monotonic (a b : ValidationResult)
    (ha1 : 1 ≤ a.final_score) (ha5 : a.final_score ≤ 5)
    (hb1 : 1 ≤ b.final_score) (hb5 : b.final_score ≤ 5) :
    (a.final_score_as_solidity_type ≤ b.final_score_as_solidity_type
      ↔ a.final_score ≤ b.final_score)
    ∧ a.final_score_as_solidity_type =
        (match min (max a.final_score 1) 5 with
          | 1 => 1 | 2 => 64 | 3 => 85 | 4 => 127 | 5 => 255 | _ => 0) := by
  obtain ⟨ah, ai, af, at_, ar⟩ := a
  obtain ⟨bh, bi, bf, bt, br⟩ := b
  simp only [ValidationResult.final_score_as_solidity_type] at *
  refine ⟨?_, trivial⟩
  interval_cases af <;> interval_cases bf <;> simp

theorem final_score_projection_monotonic_witness :
    (1 ≤ 2 ∧ 2 ≤ 5 ∧ 1 ≤ 4 ∧ 4 ≤ 5)
    ∧ ((ValidationResult.final_score_as_solidity_type ⟨0, 0, 2, 0, []⟩
          ≤ ValidationResult.final_score_as_solidity_type ⟨0, 0, 4, 0, []⟩) ↔ (2 ≤ 4)) :=
  ⟨⟨by decide, by decide, by decide, by decide⟩,
    (final_score_projection_monotonic ⟨0, 0, 2, 0, []⟩ ⟨0, 0, 4, 0, []⟩
      (by decide) (by decide) (by decide) (by decide)).1⟩

/-- Big-endian byte encoding of a natural number into a fixed width
(`U256::to_be_bytes::<32>` when the width is 32). -/
def beBytes : Nat → Nat → ByteStr
  | 0, _ => []
  | w + 1, n => beBytes w (n / 256) ++ [n % 256]

/-- Modelled from the spec: the proof-of-work preimage of §4.6,
`requester || responder || input || task_id || nonce_be32`. The nonce
miner's source file (`core/src/compute/nonce.rs`, declared by
`core/src/compute/mod.rs`) is not among the provided sources, so this
definition follows the spec's words. -/
def nonceCandidate (requester responder input taskId : ByteStr) (nonce : Nat) : ByteStr :=
  requester ++ responder ++ input ++ taskId ++ beBytes 32 nonce

/-- Modelled from the spec: single-threaded incremental search from `start`
for the first nonce whose Keccak-256 digest is numerically below `bound`.
`keccak` abstracts the Keccak-256 hash, returning the 32-byte digest read as
a big-endian number; explicit fuel makes the unbounded Rust loop a total
function. -/
def mineNonceFrom (keccak : ByteStr → Nat) (bound : Nat)
    (requester responder input taskId : ByteStr) : Nat → Nat → Option Nat
  | 0, _ => none
  | fuel + 1, n =>
    if keccak (nonceCandidate requester responder input taskId n) < bound then some n
    else mineNonceFrom keccak bound requester responder input taskId fuel (n + 1)

/-- Modelled from the spec (§4.6): find the smallest 256-bit nonce whose
candidate digest is numerically below `2^(256 - difficulty)`, searching
incrementally from 0. -/
def mine_nonce (keccak : ByteStr → Nat) (difficulty : Nat)
    (requester responder input taskId : ByteStr) (fuel : Nat) : Option Nat :=
  mineNonceFrom keccak (2 ^ (256 - difficulty)) requester responder input taskId fuel 0

/-- The incremental search returns the first qualifying nonce at or after
its starting point. -/
theorem mineNonceFrom_spec (keccak : ByteStr → Nat) (bound : Nat)
    (requester responder input taskId : ByteStr) :
    ∀ (fuel start n : Nat),
      mineNonceFrom keccak bound requester responder input taskId fuel start = some n →
      start ≤ n
      ∧ keccak (nonceCandidate requester responder input taskId n) < bound
      ∧ ∀ m, start ≤ m → m < n →
          bound ≤ keccak (nonceCandidate requester responder input taskId m)
  | 0, start, n => by
    intro h
    simp [mineNonceFrom] at h
  | fuel + 1, start, n => by
    intro h
    rw [mineNonceFrom] at h
    by_cases hc : keccak (nonceCandidate requester responder input taskId start) < bound
    · rw [if_pos hc] at h
      cases h
      exact ⟨Nat.le_refl _, hc, fun m hm1 hm2 => absurd hm1 (by omega)⟩
    · rw [if_neg hc] at h
      obtain ⟨h1, h2, h3⟩ :=
        mineNonceFrom_spec keccak bound requester responder input taskId fuel (start + 1) n h
      refine ⟨by omega, h2, fun m hm1 hm2 => ?_⟩
      rcases Nat.eq_or_lt_of_le hm1 with heq | hlt
      · subst heq
        omega
      · exact h3 m (by omega) hm2

/-- **C2.** (spec-modelled) Every nonce returned by the miner makes the
Keccak-256 digest of `requester || responder || input || task_id || nonce_be32`
numerically below `2^(256 - difficulty)` (its top `difficulty` bits are zero),
and it is the smallest nonce with that property. -/
theorem mine_nonce_spec (keccak : ByteStr → Nat) (difficulty : Nat)
    (requester responder input taskId : ByteStr) (fuel n : Nat)
    (h : mine_nonce keccak difficulty requester responder input taskId fuel = some n) :
    keccak (nonceCandidate requester responder input taskId n) < 2 ^ (256 - difficulty)
    ∧ ∀ m < n,
        2 ^ (256 - difficulty) ≤ keccak (nonceCandidate requester responder input taskId m) := by
  obtain ⟨-, h2, h3⟩ :=
    mineNonceFrom_spec keccak (2 ^ (256 - difficulty)) requester responder input taskId
      fuel 0 n h
  exact ⟨h2, fun m hm => h3 m (Nat.zero_le m) hm⟩

theorem mine_nonce_spec_witness :
    mine_nonce (fun _ => 0) 10 [] [] [] [] 3 = some 0
    ∧ ((fun _ => (0 : Nat)) (nonceCandidate [] [] [] [] 0) < 2 ^ (256 - 10)
        ∧ ∀ m < 0,
            2 ^ (256 - 10) ≤ (fun _ => (0 : Nat)) (nonceCandidate [] [] [] [] m)) :=
  ⟨by decide, mine_nonce_spec (fun _ => 0) 10 [] [] [] [] 3 0 (by decide)⟩

/-- The UTF-8 bytes of `"underpriced"`, the token looked for in RPC error
messages by `send_with_gas_hikes`. -/
def underpricedNeedle : ByteStr :=
  [117, 110, 100, 101, 114, 112, 114, 105, 99, 101, 100]

/-- Outcome of one `req.gas_price(g).send()` attempt, as matched by
`send_with_gas_hikes` (`core/src/node/core.rs`): success, an RPC error
response carrying a message, or any other error. -/
inductive SendOutcome where
  | success (tx : Nat)
  | rpcErrorResp (msg : ByteStr)
  | otherError (code : Nat)
deriving DecidableEq, Repr

/-- Result of the whole ladder: a pending transaction, an error passed
through `contract_error_report` (the decoder output is abstracted as `Nat`),
or the final "Failed all attempts send tx due to underpriced gas." error. -/
inductive SendResult where
  | sent (tx : Nat)
  | contractError (report : Nat)
  | underpricedExhausted
deriving DecidableEq, Repr

/-- `GAS_PRICE_HIKES` from `core/src/node/core.rs`. -/
def GAS_PRICE_HIKES : List Nat := [0, 12, 24, 36]

/-- `initial_gas_price + (initial_gas_price / 100) * increase_percentage`. -/
def hikedGasPrice (initial pct : Nat) : Nat :=
  initial + initial / 100 * pct

/-- Does an attempt outcome take the retry branch: an RPC error response
whose message contains `"underpriced"`? -/
def isUnderpricedOutcome : SendOutcome → Bool
  | .rpcErrorResp msg => containsSub msg underpricedNeedle
  | _ => false

/-- The attempt loop of `send_with_gas_hikes`, one iteration per entry of
the hike list. Returns the result together with the list of gas prices
actually attempted, in order. The inter-attempt 300 ms sleep is a real-time
effect outside the embedding. -/
def sendWithGasHikesAux (send : Nat → SendOutcome) (report : SendOutcome → Nat)
    (initialGasPrice : Nat) : List Nat → SendResult × List Nat
  | [] => (.underpricedExhausted, [])
  | pct :: rest =>
    let gasPrice := hikedGasPrice initialGasPrice pct
    match send gasPrice with
    | .success tx => (.sent tx, [gasPrice])
    | .rpcErrorResp msg =>
      if containsSub msg underpricedNeedle then
        let r := sendWithGasHikesAux send report initialGasPrice rest
        (r.1, gasPrice :: r.2)
      else
        (.contractError (report (.rpcErrorResp msg)), [gasPrice])
    | .otherError code => (.contractError (report (.otherError code)), [gasPrice])

/-- `DriaOracle::send_with_gas_hikes` (`core/src/node/core.rs` lines
210-265): try the request at the provider's gas price raised by each hike in
`GAS_PRICE_HIKES`, retrying only on "underpriced" RPC error responses. -/
def send_with_gas_hikes (send : Nat → SendOutcome) (report : SendOutcome → Nat)
    (initialGasPrice : Nat) : SendResult × List Nat :=
  sendWithGasHikesAux send report initialGasPrice GAS_PRICE_HIKES

/-- Behaviour of the attempt loop over any hike list: attempts follow the
ladder in order, only underpriced outcomes advance it, successes and other
errors surface from the last attempt, and exhaustion happens exactly when
every rung is underpriced. -/
theorem sendWithGasHikesAux_spec (send : Nat → SendOutcome) (report : SendOutcome → Nat)
    (initial : Nat) :
    ∀ (pcts : List Nat) (res : SendResult) (trace : List Nat),
      sendWithGasHikesAux send report initial pcts = (res, trace) →
      trace.length ≤ pcts.length
      ∧ trace = (pcts.map (hikedGasPrice initial)).take trace.length
      ∧ (∀ p ∈ trace.dropLast, isUnderpricedOutcome (send p) = true)
      ∧ (∀ tx, res = .sent tx → ∃ p ∈ trace, send p = .success tx)
      ∧ (∀ c, res = .contractError c →
          ∃ p ∈ trace, isUnderpricedOutcome (send p) = false ∧ c = report (send p))
      ∧ (res = .underpricedExhausted ↔
          ∀ p ∈ pcts.map (hikedGasPrice initial), isUnderpricedOutcome (send p) = true)
  | [], res, trace => by
    intro h
    rw [sendWithGasHikesAux] at h
    cases h
    simp
  | pct :: rest, res, trace => by
    intro h
    rw [sendWithGasHikesAux] at h
    rcases h0 : send (hikedGasPrice initial pct) with tx | msg | code <;> rw [h0] at h <;>
      dsimp only at h
    · cases h
      refine ⟨by simp, by simp, by simp, ?_, by simp, ?_⟩
      · intro tx' htx
        cases htx
        exact ⟨hikedGasPrice initial pct, by simp, h0⟩
      · constructor
        · intro hfalse
          cases hfalse
        · intro hall
          have := hall (hikedGasPrice initial pct) (by simp)
          rw [h0] at this
          simp [isUnderpricedOutcome] at this
    · by_cases hu : containsSub msg underpricedNeedle
      · rw [if_pos hu] at h
        generalize haux : sendWithGasHikesAux send report initial rest = rt at h
        obtain ⟨res', trace'⟩ := rt
        dsimp only at h
        cases h
        obtain ⟨ih1, ih2, ih3, ih4, ih5, ih6⟩ :=
          sendWithGasHikesAux_spec send report initial rest _ _ haux
        have hunder : isUnderpricedOutcome (send (hikedGasPrice initial pct)) = true := by
          rw [h0]; simp [isUnderpricedOutcome, hu]
        refine ⟨by simp; omega, ?_, ?_, ?_, ?_, ?_⟩
        · simp only [List.map_cons, List.length_cons, List.take_succ_cons]
          rw [← ih2]
        · intro p hp
          rcases trace' with _ | ⟨t0, ts⟩
          · simp at hp
          · rw [List.dropLast_cons₂] at hp
            rcases List.mem_cons.mp hp with rfl | hp'
            · exact hunder
            · exact ih3 p hp'
        · intro tx htx
          obtain ⟨p, hp, hsp⟩ := ih4 tx htx
          exact ⟨p, List.mem_cons_of_mem _ hp, hsp⟩
        · intro c hc
          obtain ⟨p, hp, hsp⟩ := ih5 c hc
          exact ⟨p, List.mem_cons_of_mem _ hp, hsp⟩
        · rw [ih6]
          simp only [List.map_cons, List.forall_mem_cons]
          constructor
          · intro hrest
            exact ⟨hunder, hrest⟩
          · intro hboth
            exact hboth.2
      · rw [if_neg hu] at h
        cases h
        refine ⟨by simp, by simp, by simp, by simp, ?_, ?_⟩
        · intro c hc
          cases hc
          refine ⟨hikedGasPrice initial pct, by simp, ?_, ?_⟩
          · rw [h0]
            simp only [isUnderpricedOutcome]
            exact Bool.not_eq_true _ ▸ (by simpa using hu)
          · rw [h0]
        · constructor
          · intro hfalse
            cases hfalse
          · intro hall
            have := hall (hikedGasPrice initial pct) (by simp)
            rw [h0] at this
            simp only [isUnderpricedOutcome] at this
            exact absurd this hu
    · cases h
      refine ⟨by simp, by simp, by simp, by simp, ?_, ?_⟩
      · intro c hc
        cases hc
        exact ⟨hikedGasPrice initial pct, by simp, by rw [h0]; simp [isUnderpricedOutcome],
          by rw [h0]⟩
      · constructor
        · intro hfalse
          cases hfalse
        · intro hall
          have := hall (hikedGasPrice initial pct) (by simp)
          rw [h0] at this
          simp [isUnderpricedOutcome] at this

/-- **C4.** The transaction sender makes at most 4 attempts, at the
provider's price raised by 0%, 12%, 24% and 36% in order; it advances past
an attempt only on an RPC error response whose message contains
"underpriced"; a success or any other error surfaces from the last attempt
made, other errors passing through the contract-error decoder; and it
returns the all-attempts-underpriced error exactly when all 4 rungs fail as
underpriced. (The ≈300 ms inter-attempt sleep is a real-time effect outside
the embedding.) -/
theorem send_with_gas_hikes_ladder (send : Nat → SendOutcome) (report : SendOutcome → Nat)
    (initial : Nat) (res : SendResult) (trace : List Nat)
    (h : send_with_gas_hikes send report initial = (res, trace)) :
    trace.length ≤ 4
    ∧ trace = (List.map (hikedGasPrice initial) [0, 12, 24, 36]).take trace.length
    ∧ (∀ p ∈ trace.dropLast, isUnderpricedOutcome (send p) = true)
    ∧ (∀ tx, res = .sent tx → ∃ p ∈ trace, send p = .success tx)
    ∧ (∀ c, res = .contractError c →
        ∃ p ∈ trace, isUnderpricedOutcome (send p) = false ∧ c = report (send p))
    ∧ (res = .underpricedExhausted ↔
        ∀ p ∈ List.map (hikedGasPrice initial) [0, 12, 24, 36],
          isUnderpricedOutcome (send p) = true) := by
  have := sendWithGasHikesAux_spec send report initial GAS_PRICE_HIKES res trace h
  rw [GAS_PRICE_HIKES] at this
  exact this

theorem send_with_gas_hikes_ladder_witness :
    send_with_gas_hikes (fun _ => .rpcErrorResp underpricedNeedle) (fun _ => 0) 100
      = (.underpricedExhausted, [100, 112, 124, 136])
    ∧ ([100, 112, 124, 136] : List Nat).length ≤ 4
    ∧ (SendResult.underpricedExhausted = .underpricedExhausted ↔
        ∀ p ∈ List.map (hikedGasPrice 100) [0, 12, 24, 36],
          isUnderpricedOutcome ((fun _ => SendOutcome.rpcErrorResp underpricedNeedle) p) = true) :=
  ⟨by decide,
   (send_with_gas_hikes_ladder (fun _ => .rpcErrorResp underpricedNeedle) (fun _ => 0) 100
      .underpricedExhausted [100, 112, 124, 136] (by decide)).1,
   (send_with_gas_hikes_ladder (fun _ => .rpcErrorResp underpricedNeedle) (fun _ => 0) 100
      .underpricedExhausted [100, 112, 124, 136] (by decide)).2.2.2.2.2⟩

/-- The UTF-8 bytes of the start marker `"<shop_list>"`. -/
def shopListStart : ByteStr :=
  [60, 115, 104, 111, 112, 95, 108, 105, 115, 116, 62]

/-- The UTF-8 bytes of the end marker `"</shop_list>"`. -/
def shopListEnd : ByteStr :=
  [60, 47, 115, 104, 111, 112, 95, 108, 105, 115, 116, 62]

/-- The region-of-interest extraction of `SwanPurchasePostProcessor::post_process`:
`input.find(start)` then `input[start..].find(end)`, markers excluded. -/
def extractRoi (startMarker endMarker input : ByteStr) : Option ByteStr :=
  match findSub input startMarker with
  | none => none
  | some i =>
    let start := i + startMarker.length
    match findSub (input.drop start) endMarker with
    | none => none
    | some j => some ((input.drop start).take j)

/-- Split a byte string at every occurrence of a byte, keeping empty groups
(Rust `str::split`). -/
def splitOnByte (b : Nat) : ByteStr → List ByteStr
  | [] => [[]]
  | c :: rest =>
    match splitOnByte b rest with
    | [] => [[]]
    | grp :: grps => if c = b then [] :: grp :: grps else (c :: grp) :: grps

/-- Strip one trailing carriage return (Rust `str::lines` does this to each
line). -/
def stripTrailingCr (l : ByteStr) : ByteStr :=
  match l.getLast? with
  | some 0x0D => l.dropLast
  | _ => l

/-- Rust `str::lines`: split on `\n`, drop the trailing empty segment
produced by a final newline (or by an empty string), strip one `\r` from
each line. -/
def rustLines (s : ByteStr) : List ByteStr :=
  let parts := splitOnByte 0x0A s
  let parts := if parts.getLast? = some [] then parts.dropLast else parts
  parts.map stripTrailingCr

/-- ASCII whitespace for Rust `str::trim` (`char::is_whitespace` also covers
multi-byte Unicode whitespace, which this byte-level model leaves out). -/
def isRustWs (b : Nat) : Bool :=
  b == 0x20 || b == 0x09 || b == 0x0A || b == 0x0B || b == 0x0C || b == 0x0D

/-- Rust `str::trim` at byte level. -/
def trimBytes (l : ByteStr) : ByteStr :=
  ((l.dropWhile isRustWs).reverse.dropWhile isRustWs).reverse

/-- Decode a hex string two digits at a time (const-hex's decoder, used by
`Address::from_str`). -/
def hexPairsToBytes : ByteStr → Option ByteStr
  | [] => some []
  | [_] => none
  | h1 :: h2 :: rest =>
    match hexValOfByte h1, hexValOfByte h2 with
    | some d1, some d2 => (hexPairsToBytes rest).map (fun bs => (d1 * 16 + d2) :: bs)
    | _, _ => none

/-- `alloy::primitives::Address::from_str`: strip an optional `0x`/`0X`
prefix, hex-decode, and require exactly 20 bytes. No checksum validation is
performed by `from_str`. -/
def addressFromStr (s : ByteStr) : Option ByteStr :=
  let s := if s.take 2 = [48, 120] ∨ s.take 2 = [48, 88] then s.drop 2 else s
  match hexPairsToBytes s with
  | some bytes => if bytes.length = 20 then some bytes else none
  | none => none

/-- The shopping-list candidates of `SwanPurchasePostProcessor::post_process`:
(1) try `serde_json::from_str::<Vec<&str>>` on the region of interest
(abstracted as the `jsonList` parameter), else (2) split into lines, trim
each, and drop empty lines. -/
def swanShoppingList (jsonList : ByteStr → Option (List ByteStr)) (roi : ByteStr) :
    List ByteStr :=
  match jsonList roi with
  | some list => list
  | none => ((rustLines roi).map trimBytes).filter (fun l => !l.isEmpty)

/-- One 32-byte ABI word holding a left-padded 20-byte address. -/
def abiWordOfAddress (a : ByteStr) : ByteStr :=
  List.replicate 12 0 ++ a

/-- `alloy` `abi_encode` of a `Vec<Address>`: offset word (32), length word,
then one left-padded word per address. -/
def abiEncodeAddressArray (addrs : List ByteStr) : ByteStr :=
  beBytes 32 32 ++ beBytes 32 addrs.length ++ (addrs.map abiWordOfAddress).flatten

/-- A byte string read as a big-endian number. -/
def natOfBe (l : ByteStr) : Nat :=
  l.foldl (fun acc b => acc * 256 + b) 0

/-- Strict ABI decoding of `count` address words (the on-chain consumer's
view, validating the zero padding). -/
def abiDecodeAddressWords : Nat → ByteStr → Option (List ByteStr)
  | 0, rest => if rest = [] then some [] else none
  | k + 1, bytes =>
    if bytes.length < 32 then none
    else if (bytes.take 32).take 12 = List.replicate 12 0 then
      (abiDecodeAddressWords k (bytes.drop 32)).map
        (fun rest => (bytes.take 32).drop 12 :: rest)
    else none

/-- Strict ABI decoding of a Solidity `address[]` value. -/
def abiDecodeAddressArray (b : ByteStr) : Option (List ByteStr) :=
  if b.length < 64 then none
  else if natOfBe (b.take 32) ≠ 32 then none
  else abiDecodeAddressWords (natOfBe ((b.drop 32).take 32)) (b.drop 64)

/-- `SwanPurchasePostProcessor::post_process`
(`core/src/compute/generation/postprocess/swan.rs` lines 31-82): extract the
region between the markers (`none` models the eyre error when they are
missing), collect candidates, parse each as an address dropping failures,
ABI-encode as `address[]`; the original input is the metadata and the
offload flag is `false`. -/
def swanPostProcess (jsonList : ByteStr → Option (List ByteStr)) (input : ByteStr) :
    Option (ByteStr × ByteStr × Bool) :=
  match extractRoi shopListStart shopListEnd input with
  | none => none
  | some roi =>
    some (abiEncodeAddressArray ((swanShoppingList jsonList roi).filterMap addressFromStr),
      input, false)

/-- A pattern is found at position 0 of any extension of itself. -/
theorem bytesStartWith_append (pat rest : ByteStr) :
    bytesStartWith (pat ++ rest) pat = true := by
  induction pat with
  | nil =>
    cases rest <;> rfl
  | cons b bs ih => simp [bytesStartWith, ih]

/-- `find` succeeds on any string that contains the pattern, at an index no
later than the occurrence exhibited. -/
theorem findSub_append (a pat b : ByteStr) :
    ∃ i, findSub (a ++ (pat ++ b)) pat = some i ∧ i ≤ a.length := by
  induction a with
  | nil =>
    refine ⟨0, ?_, Nat.le_refl 0⟩
    rw [List.nil_append, findSub.eq_def, if_pos (bytesStartWith_append pat b)]
  | cons c a' ih =>
    simp only [List.cons_append]
    by_cases hsw : bytesStartWith (c :: (a' ++ (pat ++ b))) pat = true
    · exact ⟨0, by rw [findSub.eq_def, if_pos hsw], Nat.zero_le _⟩
    · obtain ⟨i, hi, hle⟩ := ih
      refine ⟨i + 1, ?_, by simp only [List.length_cons]; omega⟩
      rw [findSub.eq_def, if_neg hsw]
      simp [hi]

theorem mod_pow_split (n w : Nat) :
    n % 256 ^ (w + 1) = 256 * (n / 256 % 256 ^ w) + n % 256 := by
  have h1 : n / 256 % 256 ^ w = n % (256 * 256 ^ w) / 256 :=
    (Nat.mod_mul_right_div_self n 256 (256 ^ w)).symm
  have h2 : (256 : Nat) ^ (w + 1) = 256 * 256 ^ w := by ring
  have h3 : n % (256 * 256 ^ w) % 256 = n % 256 :=
    Nat.mod_mod_of_dvd n ⟨256 ^ w, rfl⟩
  rw [h2, h1, ← h3]
  exact (Nat.div_add_mod (n % (256 * 256 ^ w)) 256).symm

/-- Reading back a big-endian encoding. -/
theorem natOfBe_beBytes (w n : Nat) : natOfBe (beBytes w n) = n % 256 ^ w := by
  induction w generalizing n with
  | zero => simp [beBytes, natOfBe, Nat.mod_one]
  | succ w ih =>
    rw [beBytes, natOfBe, List.foldl_append]
    show natOfBe (beBytes w (n / 256)) * 256 + n % 256 = n % 256 ^ (w + 1)
    rw [ih, mod_pow_split]
    ring

theorem beBytes_length (w n : Nat) : (beBytes w n).length = w := by
  induction w generalizing n with
  | zero => rfl
  | succ w ih => simp [beBytes, ih]

theorem wordsFlatten_length (addrs : List ByteStr) (h : ∀ a ∈ addrs, a.length = 20) :
    ((addrs.map abiWordOfAddress).flatten).length = 32 * addrs.length := by
  induction addrs with
  | nil => simp
  | cons a rest ih =>
    have ha : a.length = 20 := h a (List.mem_cons_self a rest)
    have := ih (fun x hx => h x (List.mem_cons_of_mem a hx))
    simp only [List.map_cons, List.flatten_cons, List.length_append, List.length_cons, this,
      abiWordOfAddress, List.length_replicate, ha]
    ring

/-- Decoding the encoded address words gives back the addresses. -/
theorem abiDecodeAddressWords_encode (addrs : List ByteStr)
    (h : ∀ a ∈ addrs, a.length = 20) :
    abiDecodeAddressWords addrs.length ((addrs.map abiWordOfAddress).flatten) = some addrs := by
  induction addrs with
  | nil => simp [abiDecodeAddressWords]
  | cons a rest ih =>
    have ha : a.length = 20 := h a (List.mem_cons_self a rest)
    have hw : (abiWordOfAddress a).length = 32 := by
      simp [abiWordOfAddress, ha]
    have hlen : (abiWordOfAddress a ++ (rest.map abiWordOfAddress).flatten).length
        = 32 + ((rest.map abiWordOfAddress).flatten).length := by
      simp [hw]
    rw [List.map_cons, List.flatten_cons, List.length_cons, abiDecodeAddressWords]
    rw [if_neg (by omega)]
    rw [List.take_left' hw, List.drop_left' hw]
    have hpad : (abiWordOfAddress a).take 12 = List.replicate 12 0 :=
      List.take_left' (by simp)
    rw [if_pos hpad]
    rw [ih (fun x hx => h x (List.mem_cons_of_mem a hx))]
    have hdrop12 : (abiWordOfAddress a).drop 12 = a :=
      List.drop_left' (by simp)
    simp [hdrop12]

/-- Decoding the full encoded `address[]` value gives back the addresses. -/
theorem abiDecodeAddressArray_encode (addrs : List ByteStr)
    (h20 : ∀ a ∈ addrs, a.length = 20) (hn : addrs.length < 256 ^ 32) :
    abiDecodeAddressArray (abiEncodeAddressArray addrs) = some addrs := by
  have hoffLen : (beBytes 32 (32 : Nat)).length = 32 := beBytes_length _ _
  have hcntLen : (beBytes 32 addrs.length).length = 32 := beBytes_length _ _
  have hwords := wordsFlatten_length addrs h20
  have h32small : (32 : Nat) % 256 ^ 32 = 32 :=
    Nat.mod_eq_of_lt (lt_of_lt_of_le (by norm_num)
      (le_trans (le_of_eq (pow_one 256).symm) (Nat.pow_le_pow_right (by norm_num) (by norm_num))))
  have htotal : (abiEncodeAddressArray addrs).length = 64 + 32 * addrs.length := by
    simp [abiEncodeAddressArray, hoffLen, hcntLen, hwords]
    ring
  rw [abiDecodeAddressArray]
  rw [if_neg (by omega)]
  have htake0 : (abiEncodeAddressArray addrs).take 32 = beBytes 32 32 := by
    rw [abiEncodeAddressArray, List.append_assoc, List.take_left' hoffLen]
  have hdrop0 : (abiEncodeAddressArray addrs).drop 32
      = beBytes 32 addrs.length ++ (addrs.map abiWordOfAddress).flatten := by
    rw [abiEncodeAddressArray, List.append_assoc, List.drop_left' hoffLen]
  rw [htake0, natOfBe_beBytes, h32small]
  rw [if_neg (by omega)]
  have hdrop64 : (abiEncodeAddressArray addrs).drop 64
      = (addrs.map abiWordOfAddress).flatten := by
    have : (64 : Nat) = 32 + 32 := by norm_num
    rw [this, ← List.drop_drop, hdrop0, List.drop_left' hcntLen]
  rw [hdrop0, List.take_left' hcntLen, natOfBe_beBytes, Nat.mod_eq_of_lt hn, hdrop64]
  exact abiDecodeAddressWords_encode addrs h20

/-- When the input contains the start marker followed (later) by the end
marker, the region-of-interest extraction succeeds. -/
theorem extractRoi_of_contains (startM endM a b c : ByteStr) :
    ∃ roi, extractRoi startM endM (a ++ (startM ++ (b ++ (endM ++ c)))) = some roi := by
  obtain ⟨i, hi, hile⟩ := findSub_append a startM (b ++ (endM ++ c))
  have hassoc : a ++ (startM ++ (b ++ (endM ++ c))) = (a ++ startM) ++ (b ++ (endM ++ c)) :=
    (List.append_assoc a startM _).symm
  have hdrop : ((a ++ startM) ++ (b ++ (endM ++ c))).drop (i + startM.length)
      = ((a ++ startM).drop (i + startM.length) ++ b) ++ (endM ++ c) := by
    rw [List.drop_append_eq_append_drop]
    have h0 : i + startM.length - (a ++ startM).length = 0 := by
      simp only [List.length_append]
      omega
    rw [h0, List.drop_zero, List.append_assoc]
  obtain ⟨j, hj, -⟩ :=
    findSub_append ((a ++ startM).drop (i + startM.length) ++ b) endM c
  refine ⟨((a ++ startM).drop (i + startM.length) ++ b ++ (endM ++ c)).take j, ?_⟩
  rw [extractRoi, hi]
  dsimp only
  rw [hassoc, hdrop, hj]

/-- A successfully parsed address has exactly 20 bytes. -/
theorem addressFromStr_length {s out : ByteStr} (h : addressFromStr s = some out) :
    out.length = 20 := by
  rw [addressFromStr] at h
  set s' := if s.take 2 = [48, 120] ∨ s.take 2 = [48, 88] then s.drop 2 else s with hs'
  rcases hd : hexPairsToBytes s' with _ | bytes <;> rw [hd] at h <;> dsimp only at h
  · cases h
  · by_cases hb : bytes.length = 20
    · rw [if_pos hb] at h
      cases h
      exact hb
    · rw [if_neg hb] at h
      cases h

/-- **C3.** For any input containing the `<shop_list>` start marker followed
by the `</shop_list>` end marker, the Swan purchase post-processor succeeds
with a triple whose output is the ABI encoding of exactly the candidate
entries inside the markers that parse as 20-byte addresses (non-parseable
entries dropped, order preserved) — it ABI-decodes back to that list —
whose metadata is the original input bytes, and whose offload flag is
`false`. -/
theorem swan_post_process_spec (jsonList : ByteStr → Option (List ByteStr))
    (input a b c : ByteStr)
    (hin : input = a ++ (shopListStart ++ (b ++ (shopListEnd ++ c)))) :
    ∃ roi,
      extractRoi shopListStart shopListEnd input = some roi
      ∧ swanPostProcess jsonList input =
          some (abiEncodeAddressArray ((swanShoppingList jsonList roi).filterMap addressFromStr),
            input, false)
      ∧ (((swanShoppingList jsonList roi).filterMap addressFromStr).length < 256 ^ 32 →
          abiDecodeAddressArray
              (abiEncodeAddressArray ((swanShoppingList jsonList roi).filterMap addressFromStr))
            = some ((swanShoppingList jsonList roi).filterMap addressFromStr)) := by
  subst hin
  obtain ⟨roi, hroi⟩ := extractRoi_of_contains shopListStart shopListEnd a b c
  refine ⟨roi, hroi, ?_, ?_⟩
  · rw [swanPostProcess, hroi]
  · intro hlen
    apply abiDecodeAddressArray_encode _ _ hlen
    intro x hx
    obtain ⟨y, _, hxy⟩ := List.mem_filterMap.mp hx
    exact addressFromStr_length hxy

theorem swan_post_process_spec_witness :
    ∃ roi,
      extractRoi shopListStart shopListEnd
          ([] ++ (shopListStart ++ (([48, 120] ++ List.replicate 40 52) ++ (shopListEnd ++ []))))
        = some roi
      ∧ swanPostProcess (fun _ => none)
            ([] ++ (shopListStart ++ (([48, 120] ++ List.replicate 40 52) ++ (shopListEnd ++ []))))
          = some
              (abiEncodeAddressArray ((swanShoppingList (fun _ => none) roi).filterMap
                addressFromStr),
                [] ++ (shopListStart ++ (([48, 120] ++ List.replicate 40 52) ++ (shopListEnd ++ []))),
                false)
      ∧ (((swanShoppingList (fun _ => none) roi).filterMap addressFromStr).length < 256 ^ 32 →
          abiDecodeAddressArray
              (abiEncodeAddressArray ((swanShoppingList (fun _ => none) roi).filterMap
                addressFromStr))
            = some ((swanShoppingList (fun _ => none) roi).filterMap addressFromStr)) :=
  swan_post_process_spec (fun _ => none) _ [] ([48, 120] ++ List.replicate 40 52) [] rfl

/-- The fields of the Coordinator's `TaskResponse` read by the handlers. -/
structure TaskResponse where
  responder : Nat
  output : ByteStr
  metadata : ByteStr
deriving DecidableEq, Repr

/-- The field of the Coordinator's `TaskValidation` read by the handlers. -/
structure TaskValidation where
  validator : Nat
deriving DecidableEq, Repr

/-- The fields of the Coordinator's `TaskRequest` read by the handlers. -/
structure TaskRequest where
  requester : ByteStr
  input : ByteStr
  models : ByteStr
  difficulty : Nat
deriving DecidableEq, Repr

/-- A response transaction submitted through the node's contract client. -/
inductive SubmittedTx where
  | respondGeneration (taskId : Nat) (output metadata : ByteStr) (nonce : Nat)
  | respondValidation (taskId : Nat) (scores : List Nat) (metadata : ByteStr) (nonce : Nat)
deriving DecidableEq, Repr

/-- Environment of a handler run: the node's own address and the outcomes of
its external interactions. RPC reads and writes, LLM execution, and serde
calls are abstracted as functions; models and parsed generation requests are
abstract handles (`Nat`). `mineNonceResult` abstracts `mine_nonce`, whose
Keccak-256 search is external to this section (see `mine_nonce` above). -/
structure OracleEnv where
  selfAddr : Nat
  getResponses : Nat → Except String (List TaskResponse)
  getValidations : Nat → Except String (List TaskValidation)
  requests : Nat → Except String TaskRequest
  chooseModel : ByteStr → Nat
  parseInput : ByteStr → Except String Nat
  executeGeneration : Nat → Nat → Except String ByteStr
  jsonStrList : ByteStr → Option (List ByteStr)
  arweaveEnvResult : Except String ArweaveEnv
  mineNonceResult : TaskRequest → Nat → Nat
  respondGeneration : Nat → ByteStr → ByteStr → Nat → Except String Nat
  executeValidations : ByteStr → List ByteStr → Except String (List ValidationResult)
  serializeValidations : List ValidationResult → Except String ByteStr
  download : ArweaveKey → Except String ByteStr
  respondValidation : Nat → List Nat → ByteStr → Nat → Except String Nat

/-- `bytes32_to_string`: the UTF-8 text of a 32-byte tag up to the first
NUL. -/
def bytes32ToString (p : ByteStr) : ByteStr :=
  p.takeWhile (· ≠ 0)

/-- `protocol_string.split('/').next().unwrap_or_default()`: the prefix
before the first `/`. -/
def protocolHead (p : ByteStr) : ByteStr :=
  p.takeWhile (· ≠ 47)

/-- The UTF-8 bytes of `SwanPurchasePostProcessor::PROTOCOL`
(`"swan-agent-purchase"`). -/
def swanProtocolName : ByteStr :=
  [115, 119, 97, 110, 45, 97, 103, 101, 110, 116, 45, 112, 117, 114, 99, 104, 97, 115, 101]

/-- Modelled from the spec (§4.5): `IdentityPostProcessor::post_process`
(its source file `core/src/compute/generation/postprocess/identity.rs` is
not among the provided sources): `output = metadata = UTF8(input)`,
`offload = true`. -/
def identityPostProcess (input : ByteStr) : Option (ByteStr × ByteStr × Bool) :=
  some (input, input, true)

/-- `handle_generation` (`core/src/compute/generation/handler.rs`): check
the idempotency guard, fetch the request, choose a model, parse and execute
the input, post-process by protocol prefix, offload outputs, mine a nonce,
and submit `respond_generation`. The second component records every
submitted response transaction. -/
def handle_generation (env : OracleEnv) (taskId : Nat) (protocol : ByteStr) :
    Except String (Option Nat) × List SubmittedTx :=
  match env.getResponses taskId with
  | .error e => (.error e, [])
  | .ok responses =>
    if responses.any (fun r => r.responder == env.selfAddr) then
      (.ok none, [])
    else
      match env.requests taskId with
      | .error e => (.error e, [])
      | .ok request =>
        let model := env.chooseModel request.models
        let protocolString := bytes32ToString protocol
        match env.parseInput request.input with
        | .error e => (.error e, [])
        | .ok input =>
          match env.executeGeneration input model with
          | .error e => (.error e, [])
          | .ok output =>
            let post :=
              if protocolHead protocolString = swanProtocolName then
                swanPostProcess env.jsonStrList output
              else identityPostProcess output
            match post with
            | none => (.error "could not find the shop list markers", [])
            | some (output, metadata, useStorage) =>
              match env.arweaveEnvResult with
              | .error e => (.error e, [])
              | .ok arweave =>
                let output := if useStorage then putIfLarge arweave output else output
                let metadata := putIfLarge arweave metadata
                let nonce := env.mineNonceResult request taskId
                match env.respondGeneration taskId output metadata nonce with
                | .error e => (.error e, [.respondGeneration taskId output metadata nonce])
                | .ok receipt =>
                  (.ok (some receipt), [.respondGeneration taskId output metadata nonce])

/-- `handle_validation` (`core/src/compute/validation/handler.rs`): refuse
to validate the node's own generation, error if already validated, fetch the
request and responses, resolve each generation's metadata, score them
(validation always runs GPT-4o in the source), serialize and offload the
results, mine a nonce, and submit `respond_validation`. -/
def handle_validation (env : OracleEnv) (taskId : Nat) :
    Except String (Option Nat) × List SubmittedTx :=
  match env.getResponses taskId with
  | .error e => (.error e, [])
  | .ok responses =>
    if responses.any (fun r => r.responder == env.selfAddr) then
      (.ok none, [])
    else
      match env.getValidations taskId with
      | .error e => (.error e, [])
      | .ok validations =>
        if validations.any (fun v => v.validator == env.selfAddr) then
          (.error ("Already validated " ++ toString taskId), [])
        else
          match env.requests taskId with
          | .error e => (.error e, [])
          | .ok request =>
            match env.getResponses taskId with
            | .error e => (.error e, [])
            | .ok responses2 =>
              match responses2.mapM (fun r => parseDownloadable env.download r.metadata) with
              | .error e => (.error e, [])
              | .ok generations =>
                match parseDownloadable env.download request.input with
                | .error e => (.error e, [])
                | .ok input =>
                  match env.executeValidations input generations with
                  | .error e => (.error e, [])
                  | .ok validationResults =>
                    let scores :=
                      validationResults.map ValidationResult.final_score_as_solidity_type
                    match env.serializeValidations validationResults with
                    | .error e => (.error e, [])
                    | .ok metadataStr =>
                      match env.arweaveEnvResult with
                      | .error e => (.error e, [])
                      | .ok arweave =>
                        let metadata := putIfLarge arweave metadataStr
                        let nonce := env.mineNonceResult request taskId
                        match env.respondValidation taskId scores metadata nonce with
                        | .error e =>
                          (.error e, [.respondValidation taskId scores metadata nonce])
                        | .ok receipt =>
                          (.ok (some receipt), [.respondValidation taskId scores metadata nonce])

/-- A concrete environment in which the node (address 7) already appears as
a responder for every task. -/
def envAlreadyResponded : OracleEnv where
  selfAddr := 7
  getResponses := fun _ => .ok [⟨7, [], []⟩]
  getValidations := fun _ => .ok []
  requests := fun _ => .error "request unavailable"
  chooseModel := fun _ => 0
  parseInput := fun _ => .error "parse"
  executeGeneration := fun _ _ => .error "execute"
  jsonStrList := fun _ => none
  arweaveEnvResult := .ok ⟨1024, fun _ => ⟨[]⟩⟩
  mineNonceResult := fun _ _ => 0
  respondGeneration := fun _ _ _ _ => .error "respond"
  executeValidations := fun _ _ => .error "validate"
  serializeValidations := fun _ => .error "serialize"
  download := fun _ => .error "download"
  respondValidation := fun _ _ _ _ => .error "respond"

/-- A concrete environment in which the node (address 7) is not a responder
but already has a validation recorded for every task. -/
def envAlreadyValidated : OracleEnv where
  selfAddr := 7
  getResponses := fun _ => .ok [⟨3, [], []⟩]
  getValidations := fun _ => .ok [⟨7⟩]
  requests := fun _ => .error "request unavailable"
  chooseModel := fun _ => 0
  parseInput := fun _ => .error "parse"
  executeGeneration := fun _ _ => .error "execute"
  jsonStrList := fun _ => none
  arweaveEnvResult := .ok ⟨1024, fun _ => ⟨[]⟩⟩
  mineNonceResult := fun _ _ => 0
  respondGeneration := fun _ _ _ _ => .error "respond"
  executeValidations := fun _ _ => .error "validate"
  serializeValidations := fun _ => .error "serialize"
  download := fun _ => .error "download"
  respondValidation := fun _ _ _ _ => .error "respond"

/-- **C1.** If any response fetched from the Coordinator has the node's own
address as responder, the generation handler returns "ignored" (`Ok(None)`)
and submits no transaction. After a successful `respond_generation` the
Coordinator (out of scope here) records such a response, so every subsequent
invocation for that task satisfies this hypothesis. -/
theorem handle_generation_idempotency_guard (env : OracleEnv) (taskId : Nat)
    (protocol : ByteStr) (responses : List TaskResponse)
    (hresp : env.getResponses taskId = .ok responses)
    (hself : ∃ r ∈ responses, r.responder = env.selfAddr) :
    handle_generation env taskId protocol = (.ok none, []) := by
  obtain ⟨r, hr, hrs⟩ := hself
  rw [handle_generation, hresp]
  dsimp only
  have hany : (responses.any fun r => r.responder == env.selfAddr) = true := by
    simp only [List.any_eq_true]
    exact ⟨r, hr, by simp [hrs]⟩
  rw [if_pos hany]

theorem handle_generation_idempotency_guard_witness :
    envAlreadyResponded.getResponses 5 = .ok [⟨7, [], []⟩]
    ∧ (∃ r ∈ [(⟨7, [], []⟩ : TaskResponse)], r.responder = envAlreadyResponded.selfAddr)
    ∧ handle_generation envAlreadyResponded 5 [] = (.ok none, []) :=
  ⟨rfl, by decide,
    handle_generation_idempotency_guard envAlreadyResponded 5 [] [⟨7, [], []⟩] rfl (by decide)⟩

/-- **C5.** If the node's own address appears as a responder among a task's
generations, the validation handler returns "ignored" (`Ok(None)`) without
submitting a `respond_validation` transaction. -/
theorem handle_validation_refuses_own_generation (env : OracleEnv) (taskId : Nat)
    (responses : List TaskResponse)
    (hresp : env.getResponses taskId = .ok responses)
    (hself : ∃ r ∈ responses, r.responder = env.selfAddr) :
    handle_validation env taskId = (.ok none, []) := by
  obtain ⟨r, hr, hrs⟩ := hself
  rw [handle_validation, hresp]
  dsimp only
  have hany : (responses.any fun r => r.responder == env.selfAddr) = true := by
    simp only [List.any_eq_true]
    exact ⟨r, hr, by simp [hrs]⟩
  rw [if_pos hany]

theorem handle_validation_refuses_own_generation_witness :
    envAlreadyResponded.getResponses 5 = .ok [⟨7, [], []⟩]
    ∧ (∃ r ∈ [(⟨7, [], []⟩ : TaskResponse)], r.responder = envAlreadyResponded.selfAddr)
    ∧ handle_validation envAlreadyResponded 5 = (.ok none, []) :=
  ⟨rfl, by decide,
    handle_validation_refuses_own_generation envAlreadyResponded 5 [⟨7, [], []⟩] rfl (by decide)⟩

/-- Counterexample to C6 as stated: with a validation by the node already
recorded (and the node not among the responders), `handle_validation`
surfaces an error — `Err("Already validated {task_id}")` — rather than
skipping silently with `Ok(None)`. -/
theorem handle_validation_already_validated_cex :
    (handle_validation envAlreadyValidated 5).1 = .error "Already validated 5"
    ∧ (handle_validation envAlreadyValidated 5).1 ≠ .ok none := by
  refine ⟨rfl, ?_⟩
  intro h
  rw [show (handle_validation envAlreadyValidated 5).1
      = Except.error "Already validated 5" from rfl] at h
  cases h

/-- **C6** (amended). When the node already has a validation recorded for a
task (and is not among its responders), the validation handler submits no
transaction, but it returns an `Already validated` error instead of an
"ignored" `Ok(None)`: the skip is surfaced as an error to the caller. -/
theorem handle_validation_already_validated (env : OracleEnv) (taskId : Nat)
    (responses : List TaskResponse) (validations : List TaskValidation)
    (hresp : env.getResponses taskId = .ok responses)
    (hnotown : ∀ r ∈ responses, r.responder ≠ env.selfAddr)
    (hvals : env.getValidations taskId = .ok validations)
    (hself : ∃ v ∈ validations, v.validator = env.selfAddr) :
    handle_validation env taskId = (.error ("Already validated " ++ toString taskId), []) := by
  obtain ⟨v, hv, hvs⟩ := hself
  rw [handle_validation, hresp]
  dsimp only
  have hnotany : ¬ ((responses.any fun r => r.responder == env.selfAddr) = true) := by
    simp only [List.any_eq_true]
    rintro ⟨r, hr, hrs⟩
    exact hnotown r hr (by simpa using hrs)
  rw [if_neg hnotany, hvals]
  dsimp only
  have hany : (validations.any fun v => v.validator == env.selfAddr) = true := by
    simp only [List.any_eq_true]
    exact ⟨v, hv, by simp [hvs]⟩
  rw [if_pos hany]

theorem handle_validation_already_validated_witness :
    envAlreadyValidated.getResponses 5 = .ok [⟨3, [], []⟩]
    ∧ (∀ r ∈ [(⟨3, [], []⟩ : TaskResponse)], r.responder ≠ envAlreadyValidated.selfAddr)
    ∧ envAlreadyValidated.getValidations 5 = .ok [⟨7⟩]
    ∧ (∃ v ∈ [(⟨7⟩ : TaskValidation)], v.validator = envAlreadyValidated.selfAddr)
    ∧ handle_validation envAlreadyValidated 5 = (.error "Already validated 5", []) :=
  ⟨rfl, by decide, rfl, by decide,
    handle_validation_already_validated envAlreadyValidated 5 [⟨3, [], []⟩] [⟨7⟩]
      rfl (by decide) rfl (by decide)⟩

/-- `dkn_workflows::MessageInput`: a chat message with a role and content. -/
structure MessageInput where
  role : ByteStr
  content : ByteStr
deriving DecidableEq, Repr

/-- `MessageInput::new_user_message`. -/
def newUserMessage (content : ByteStr) : MessageInput :=
  ⟨[117, 115, 101, 114], content⟩

/-- `MessageInput::new_assistant_message`. -/
def newAssistantMessage (content : ByteStr) : MessageInput :=
  ⟨[97, 115, 115, 105, 115, 116, 97, 110, 116], content⟩

/-- A Coordinator contract read performed while building chat history. -/
inductive CoordRead where
  | nextTaskId
  | getBestResponse (id : Nat)
  | requests (id : Nat)
deriving DecidableEq, Repr

/-- Environment for the chat-history branch of `execute_generation`: the
Coordinator's `nextTaskId`, the `output` field of `getBestResponse`, the
`input` field of `requests`, the Arweave download, and serde's
`Vec<MessageInput>` parse. -/
structure ChatEnv where
  nextTaskId : Nat
  getBestResponseOutput : Nat → Except String ByteStr
  requestsInput : Nat → Except String ByteStr
  download : ArweaveKey → Except String ByteStr
  parseMessages : ByteStr → Option (List MessageInput)

/-- The chat-history construction of `execute_generation`
(`core/src/compute/generation/execute.rs` lines 47-88, node present):
`history_id == 0` means no prior history and no contract read; otherwise the
id must be strictly below `nextTaskId`, then the best response is fetched,
resolved, and parsed as messages, falling back to a synthesized
user/assistant pair from the original request input. The second component
lists the Coordinator reads performed, in order. -/
def fetchChatHistory (env : ChatEnv) (historyId : Nat) :
    Except String (List MessageInput) × List CoordRead :=
  if historyId = 0 then
    (.ok [], [])
  else if env.nextTaskId ≤ historyId then
    (.error "chat history cant exist as its larger than the latest task id",
      [.nextTaskId])
  else
    match env.getBestResponseOutput historyId with
    | .error e => (.error e, [.nextTaskId, .getBestResponse historyId])
    | .ok out =>
      match parseDownloadable env.download out with
      | .error e => (.error e, [.nextTaskId, .getBestResponse historyId])
      | .ok historyStr =>
        match env.parseMessages historyStr with
        | some msgs => (.ok msgs, [.nextTaskId, .getBestResponse historyId])
        | none =>
          match env.requestsInput historyId with
          | .error e =>
            (.error e, [.nextTaskId, .getBestResponse historyId, .requests historyId])
          | .ok reqInput =>
            match parseDownloadable env.download reqInput with
            | .error e =>
              (.error e, [.nextTaskId, .getBestResponse historyId, .requests historyId])
            | .ok inp =>
              (.ok [newUserMessage inp, newAssistantMessage historyStr],
                [.nextTaskId, .getBestResponse historyId, .requests historyId])

/-- **C8.** For chat-history generation requests: `history_id == 0` yields
an empty prior history with no Coordinator read; and a nonzero
`history_id ≥ nextTaskId` fails with an explicit error before any
best-response fetch (only the `nextTaskId` read has happened). -/
theorem chat_history_boundaries (env : ChatEnv) (historyId : Nat) :
    (historyId = 0 → fetchChatHistory env historyId = (.ok [], []))
    ∧ (historyId ≠ 0 → env.nextTaskId ≤ historyId →
        fetchChatHistory env historyId
          = (.error "chat history cant exist as its larger than the latest task id",
              [CoordRead.nextTaskId])) := by
  constructor
  · intro h0
    rw [fetchChatHistory, if_pos h0]
  · intro h0 hge
    rw [fetchChatHistory, if_neg h0, if_pos hge]

theorem chat_history_boundaries_witness :
    fetchChatHistory ⟨3, fun _ => .error "rpc", fun _ => .error "rpc",
        fun _ => .error "dl", fun _ => none⟩ 0 = (.ok [], [])
    ∧ ((7 : Nat) ≠ 0 ∧ (3 : Nat) ≤ 7
        ∧ fetchChatHistory ⟨3, fun _ => .error "rpc", fun _ => .error "rpc",
            fun _ => .error "dl", fun _ => none⟩ 7
          = (.error "chat history cant exist as its larger than the latest task id",
              [CoordRead.nextTaskId])) :=
  ⟨(chat_history_boundaries _ 0).1 rfl,
   by decide, by decide,
   (chat_history_boundaries ⟨3, fun _ => .error "rpc", fun _ => .error "rpc",
      fun _ => .error "dl", fun _ => none⟩ 7).2 (by decide) (by decide)⟩
